import Mathlib

/-!
Verification of the embeddings agent of clicky-chats.

The Go source under verification is the embeddings agent
(`pkg/agents/embeddings`): a poll-claim-execute-persist loop over a
relational job store, plus a retention cleanup loop.  The store rows are
shallowly embedded as Lean structures, SQL transactions as pure functions
on a `Store` value (a transaction that fails leaves the store unchanged,
which is exactly rollback), and the loop control flow as small step
functions over the events the Go `select` statements wait on.
-/

/-- A `CreateEmbeddingRequest` row: the job-request record the agent claims
and processes.  `claimedBy` is the nullable `claimed_by` column, `done` the
completion flag, `createdAt` the `created_at` timestamp used for ordering
and retention, `modelAPI` the per-request endpoint override. -/
structure CreateEmbeddingRequest where
  id : String
  claimedBy : Option String
  done : Bool
  createdAt : Nat
  modelAPI : String
  deriving Repr, DecidableEq

/-- A `CreateEmbeddingResponse` row: the job-response record written after
execution.  `requestID` links it to its request, `statusCode` and `error`
record the executor outcome, `done` is its completion flag, `createdAt`
the timestamp used for retention. -/
structure CreateEmbeddingResponse where
  requestID : String
  statusCode : Int
  error : Option String
  done : Bool
  createdAt : Nat
  deriving Repr, DecidableEq

/-- The relational store restricted to the two tables the embeddings agent
touches. -/
structure Store where
  requests : List CreateEmbeddingRequest
  responses : List CreateEmbeddingResponse
  deriving Repr, DecidableEq

/-- The gorm errors the agent distinguishes: `gorm.ErrRecordNotFound` is the
none-available result of the claim query. -/
inductive DBErr where
  | recordNotFound
  deriving Repr, DecidableEq

/-- The WHERE clause of the claim query in `run`:
`claimed_by IS NULL OR (claimed_by = ownerID AND done = false)`. -/
def claimWhere (ownerID : String) (r : CreateEmbeddingRequest) : Bool :=
  r.claimedBy.isNone || (r.claimedBy == some ownerID && r.done == false)

/-- `ORDER BY created_at desc` followed by `First`: the leftmost row of
maximal `createdAt` among the candidates (`none` on an empty candidate
set, which gorm reports as `ErrRecordNotFound`). -/
def selectNewest : List CreateEmbeddingRequest → Option CreateEmbeddingRequest
  | [] => none
  | r :: rs =>
    match selectNewest rs with
    | none => some r
    | some r2 => if r.createdAt < r2.createdAt then some r2 else some r

/-- The SQL effect of `UPDATE ... SET claimed_by = ownerID WHERE id = reqID`:
every row whose `id` matches gets its claim-owner set. -/
def setClaimedBy (ownerID reqID : String) (rs : List CreateEmbeddingRequest) :
    List CreateEmbeddingRequest :=
  rs.map fun q => if q.id == reqID then { q with claimedBy := some ownerID } else q

/-- The claim transaction of `run` (lines 169-187): inside one transaction,
select the newest row matching `claimWhere`, then set its `claimed_by` to
the caller.  When nothing matches, the transaction returns
`ErrRecordNotFound` and rolls back, so the store is returned unchanged. -/
def claimNext (ownerID : String) (s : Store) :
    Except DBErr CreateEmbeddingRequest × Store :=
  match selectNewest (s.requests.filter (claimWhere ownerID)) with
  | none => (.error .recordNotFound, s)
  | some r => (.ok r, { s with requests := setClaimedBy ownerID r.id s.requests })

/-- The SQL effect of `UPDATE ... SET done = true WHERE id = reqID`. -/
def setDone (reqID : String) (rs : List CreateEmbeddingRequest) :
    List CreateEmbeddingRequest :=
  rs.map fun q => if q.id == reqID then { q with done := true } else q

/-- The persist transaction of `run` (lines 207-214): inside one
transaction, `db.Create` the response row and set `done = true` on the
originating request.  `dbOk` is whether the transaction commits; on
rollback the store is unchanged (the failure is only logged). -/
def completeTxn (resp : CreateEmbeddingResponse) (reqID : String)
    (s : Store) (dbOk : Bool) : Store :=
  if dbOk then
    { requests := setDone reqID s.requests, responses := s.responses ++ [resp] }
  else
    s

theorem selectNewest_eq_none {rs : List CreateEmbeddingRequest} :
    selectNewest rs = none ↔ rs = [] := by
  cases rs with
  | nil => simp [selectNewest]
  | cons r rs =>
    simp only [selectNewest]
    cases h : selectNewest rs with
    | none => simp
    | some r2 =>
      constructor
      · intro hc
        by_cases hlt : r.createdAt < r2.createdAt <;> simp [hlt] at hc
      · intro hc
        exact absurd hc (by simp)

theorem selectNewest_mem {rs : List CreateEmbeddingRequest}
    {r : CreateEmbeddingRequest} (h : selectNewest rs = some r) : r ∈ rs := by
  induction rs with
  | nil => simp [selectNewest] at h
  | cons x xs ih =>
    simp only [selectNewest] at h
    cases hx : selectNewest xs with
    | none =>
      rw [hx] at h
      simp at h
      simp [h]
    | some r2 =>
      rw [hx] at h
      by_cases hlt : x.createdAt < r2.createdAt
      · simp [hlt] at h
        subst h
        exact List.mem_cons_of_mem _ (ih hx)
      · simp [hlt] at h
        simp [h]

theorem selectNewest_max {rs : List CreateEmbeddingRequest}
    {r : CreateEmbeddingRequest} (h : selectNewest rs = some r) :
    ∀ x ∈ rs, x.createdAt ≤ r.createdAt := by
  induction rs generalizing r with
  | nil => simp
  | cons x xs ih =>
    intro y hy
    simp only [selectNewest] at h
    cases hx : selectNewest xs with
    | none =>
      rw [hx] at h
      simp at h
      rcases List.mem_cons.mp hy with hy1 | hy2
      · subst h; subst hy1; exact le_rfl
      · exact absurd (selectNewest_eq_none.mp hx ▸ hy2) (List.not_mem_nil y)
    | some r2 =>
      rw [hx] at h
      by_cases hlt : x.createdAt < r2.createdAt
      · simp [hlt] at h
        subst h
        rcases List.mem_cons.mp hy with hy1 | hy2
        · subst hy1; exact le_of_lt hlt
        · exact ih hx y hy2
      · simp [hlt] at h
        subst h
        rcases List.mem_cons.mp hy with hy1 | hy2
        · subst hy1; exact le_rfl
        · exact le_trans (ih hx y hy2) (le_of_not_lt hlt)

theorem selectNewest_isSome {rs : List CreateEmbeddingRequest}
    (h : rs ≠ []) : ∃ r, selectNewest rs = some r := by
  cases hs : selectNewest rs with
  | none => exact absurd (selectNewest_eq_none.mp hs) h
  | some r => exact ⟨r, rfl⟩

/-- C1: the claim step selects, inside one transaction, the newest record
satisfying `claimed_by IS NULL OR (claimed_by = owner AND done = false)`
and sets its claim-owner to the caller; when no record matches it fails
with `ErrRecordNotFound` and leaves the store unchanged. -/
theorem claimNext_spec (ownerID : String) (s : Store) :
    ((∀ r ∈ s.requests, claimWhere ownerID r = false) →
      claimNext ownerID s = (.error .recordNotFound, s))
    ∧ (∀ r ∈ s.requests, claimWhere ownerID r = true →
      ∃ c, (claimNext ownerID s).1 = .ok c)
    ∧ (∀ c, (claimNext ownerID s).1 = .ok c →
      c ∈ s.requests ∧ claimWhere ownerID c = true
      ∧ (∀ x ∈ s.requests, claimWhere ownerID x = true →
          x.createdAt ≤ c.createdAt)
      ∧ (claimNext ownerID s).2.requests = setClaimedBy ownerID c.id s.requests
      ∧ (claimNext ownerID s).2.responses = s.responses) := by
  refine ⟨?_, ?_, ?_⟩
  · intro hnone
    have hfil : s.requests.filter (claimWhere ownerID) = [] := by
      apply List.filter_eq_nil_iff.mpr
      intro a ha
      simp [hnone a ha]
    simp [claimNext, hfil, selectNewest]
  · intro r hr hw
    have hmem : r ∈ s.requests.filter (claimWhere ownerID) :=
      List.mem_filter.mpr ⟨hr, hw⟩
    obtain ⟨c, hc⟩ := selectNewest_isSome (List.ne_nil_of_mem hmem)
    exact ⟨c, by simp [claimNext, hc]⟩
  · intro c hc
    cases hsel : selectNewest (s.requests.filter (claimWhere ownerID)) with
    | none =>
      have hcn : claimNext ownerID s = (.error .recordNotFound, s) := by
        simp [claimNext, hsel]
      rw [hcn] at hc
      exact absurd hc (by simp)
    | some r =>
      have hcn : claimNext ownerID s =
          (.ok r, { s with requests := setClaimedBy ownerID r.id s.requests }) := by
        simp [claimNext, hsel]
      rw [hcn] at hc
      have hrc : r = c := by simpa using hc
      subst hrc
      have hmem := List.mem_filter.mp (selectNewest_mem hsel)
      refine ⟨hmem.1, hmem.2, ?_, ?_, ?_⟩
      · intro x hx hwx
        exact selectNewest_max hsel x (List.mem_filter.mpr ⟨hx, hwx⟩)
      · rw [hcn]
      · rw [hcn]

/-- A sample unclaimed request with the default endpoint. -/
def reqA : CreateEmbeddingRequest :=
  { id := "r1", claimedBy := none, done := false, createdAt := 5, modelAPI := "" }

/-- A sample newer unclaimed request with a per-request endpoint. -/
def reqB : CreateEmbeddingRequest :=
  { id := "r2", claimedBy := none, done := false, createdAt := 9
  , modelAPI := "http://per-request" }

/-- A sample store holding the two sample requests. -/
def sampleStore : Store := { requests := [reqA, reqB], responses := [] }

theorem claimNext_spec_witness :
    ∃ c, (claimNext "A" sampleStore).1 = .ok c :=
  (claimNext_spec "A" sampleStore).2.1 reqB (by decide) (by decide)

/-- C2: the completion step is atomic — committing applies exactly the
response insert and the done update, and rolling back leaves the store
unchanged — and after a rollback the request is still claimed by the
executing agent with `done` false, so it matches that same owner's claim
predicate (and no other owner's); in particular the owner's next claim on
a store holding that request re-claims it. -/
theorem completeTxn_atomic (resp : CreateEmbeddingResponse)
    (reqID agentID : String) (s : Store) :
    ((completeTxn resp reqID s true).requests = setDone reqID s.requests
      ∧ (completeTxn resp reqID s true).responses = s.responses ++ [resp])
    ∧ completeTxn resp reqID s false = s
    ∧ (∀ er ∈ s.requests, er.claimedBy = some agentID → er.done = false →
        er ∈ (completeTxn resp reqID s false).requests
        ∧ claimWhere agentID er = true
        ∧ (∀ o, o ≠ agentID → claimWhere o er = false))
    ∧ (∀ er ps, er.claimedBy = some agentID → er.done = false →
        (claimNext agentID
          (completeTxn resp reqID { requests := [er], responses := ps } false)).1
          = .ok er) := by
  refine ⟨⟨rfl, rfl⟩, rfl, ?_, ?_⟩
  · intro er hmem hclaim hdone
    refine ⟨hmem, ?_, ?_⟩
    · simp [claimWhere, hclaim, hdone]
    · intro o ho
      simp [claimWhere, hclaim, hdone]
      exact fun hcontra => absurd hcontra.symm ho
  · intro er ps hclaim hdone
    have hw : claimWhere agentID er = true := by
      simp [claimWhere, hclaim, hdone]
    simp [completeTxn, claimNext, hw, selectNewest]

theorem completeTxn_atomic_witness :
    (claimNext "A"
      (completeTxn
        { requestID := "r2", statusCode := 200, error := none, done := true
        , createdAt := 12 }
        "r2"
        { requests := [{ id := "r2", claimedBy := some "A", done := false
                       , createdAt := 9, modelAPI := "" }], responses := [] }
        false)).1
      = .ok { id := "r2", claimedBy := some "A", done := false, createdAt := 9
            , modelAPI := "" } :=
  (completeTxn_atomic
    { requestID := "r2", statusCode := 200, error := none, done := true
    , createdAt := 12 } "r2" "A"
    { requests := [{ id := "r2", claimedBy := some "A", done := false
                   , createdAt := 9, modelAPI := "" }],
      responses := [] }).2.2.2
    { id := "r2", claimedBy := some "A", done := false, createdAt := 9
    , modelAPI := "" } [] (by decide) (by decide)

/-- Durations are Go `time.Duration` values: signed counts of nanoseconds. -/
abbrev Duration := Int

/-- The `minPollingInterval` constant (line 24): `time.Second`. -/
def minPollingInterval : Duration := 1000000000

/-- The `minRequestRetention` constant (line 25): `5 * time.Minute`. -/
def minRequestRetention : Duration := 5 * 60 * 1000000000

/-- The part of the agent `Config` the claims depend on. -/
structure Config where
  pollingInterval : Duration
  retentionPeriod : Duration
  embeddingsURL : String
  apiKey : String
  agentID : String
  deriving Repr, DecidableEq

/-- The constructed `agent` value (its pure configuration fields). -/
structure Agent where
  pollingInterval : Duration
  requestRetention : Duration
  id : String
  apiKey : String
  url : String
  deriving Repr, DecidableEq

/-- The `newAgent` constructor (lines 59-83): reject a polling interval
below one second or a retention period below five minutes, then build the
agent.  `Start` calls it before either loop goroutine is launched, so a
validation failure is raised before any loop starts.  (The nil-trigger
branch only substitutes a noop trigger and cannot fail.) -/
def newAgent (cfg : Config) : Except String Agent :=
  if cfg.pollingInterval < minPollingInterval then
    .error "[embeddings] polling interval must be at least 1s"
  else if cfg.retentionPeriod < minRequestRetention then
    .error "[embeddings] request retention must be at least 5m0s"
  else
    .ok { pollingInterval := cfg.pollingInterval
        , requestRetention := cfg.retentionPeriod
        , id := cfg.agentID
        , apiKey := cfg.apiKey
        , url := cfg.embeddingsURL }

/-- C7: construction fails exactly when the polling interval is below one
second or the retention period is below five minutes, and succeeds for
every configuration meeting both minimums. -/
theorem newAgent_validation (cfg : Config) :
    ((∃ e, newAgent cfg = .error e) ↔
      (cfg.pollingInterval < minPollingInterval
        ∨ cfg.retentionPeriod < minRequestRetention))
    ∧ (minPollingInterval ≤ cfg.pollingInterval →
        minRequestRetention ≤ cfg.retentionPeriod →
        ∃ a, newAgent cfg = .ok a) := by
  constructor
  · constructor
    · intro ⟨e, he⟩
      by_cases h1 : cfg.pollingInterval < minPollingInterval
      · exact Or.inl h1
      · by_cases h2 : cfg.retentionPeriod < minRequestRetention
        · exact Or.inr h2
        · simp [newAgent, h1, h2] at he
    · intro h
      by_cases h1 : cfg.pollingInterval < minPollingInterval
      · exact ⟨"[embeddings] polling interval must be at least 1s",
          by simp [newAgent, h1]⟩
      · rcases h with h | h2
        · exact absurd h h1
        · exact ⟨"[embeddings] request retention must be at least 5m0s",
            by simp [newAgent, h1, h2]⟩
  · intro h1 h2
    exact ⟨{ pollingInterval := cfg.pollingInterval
           , requestRetention := cfg.retentionPeriod
           , id := cfg.agentID
           , apiKey := cfg.apiKey
           , url := cfg.embeddingsURL },
      by simp [newAgent, not_lt_of_le h1, not_lt_of_le h2]⟩

theorem newAgent_validation_witness :
    ∃ a, newAgent
      { pollingInterval := 2000000000, retentionPeriod := 600000000000
      , embeddingsURL := "http://agent", apiKey := "k", agentID := "A" }
      = .ok a :=
  (newAgent_validation
    { pollingInterval := 2000000000, retentionPeriod := 600000000000
    , embeddingsURL := "http://agent", apiKey := "k", agentID := "A" }).2
    (by decide) (by decide)

/-- The endpoint selection of `run` (lines 193-196): start from the
request's `ModelAPI` and fall back to the agent's configured URL when it
is empty. -/
def requestURL (embedreq : CreateEmbeddingRequest) (agentURL : String) : String :=
  if embedreq.modelAPI == "" then agentURL else embedreq.modelAPI

/-- C10: a non-empty per-request `ModelAPI` field overrides the agent-wide
embeddings URL; an empty one falls back to it. -/
theorem requestURL_override (embedreq : CreateEmbeddingRequest)
    (agentURL : String) :
    (embedreq.modelAPI ≠ "" → requestURL embedreq agentURL = embedreq.modelAPI)
    ∧ (embedreq.modelAPI = "" → requestURL embedreq agentURL = agentURL) := by
  constructor
  · intro h
    simp [requestURL, h]
  · intro h
    simp [requestURL, h]

theorem requestURL_override_witness :
    requestURL reqB "http://agent" = "http://per-request" :=
  (requestURL_override reqB "http://agent").1 (by decide)

theorem eq_of_mem_of_id_eq {rs : List CreateEmbeddingRequest}
    (hnd : rs.Pairwise fun a b => a.id ≠ b.id)
    {p q : CreateEmbeddingRequest} (hp : p ∈ rs) (hq : q ∈ rs)
    (hid : p.id = q.id) : p = q := by
  induction rs with
  | nil => exact absurd hp (List.not_mem_nil p)
  | cons x xs ih =>
    rcases List.pairwise_cons.mp hnd with ⟨hx, hxs⟩
    rcases List.mem_cons.mp hp with hp1 | hp2
    · rcases List.mem_cons.mp hq with hq1 | hq2
      · rw [hp1, hq1]
      · exact absurd (hp1 ▸ hid) (hx q hq2)
    · rcases List.mem_cons.mp hq with hq1 | hq2
      · exact absurd (hq1 ▸ hid).symm (hx p hp2)
      · exact ih hxs hp2 hq2

/-- C4: a record claimed by `X` whose completion flag is false satisfies
the claim-selection predicate for `X` (idempotent re-claim) and for no
distinct owner `Y`; consequently a claim step by `Y` leaves such a record
untouched (the table's primary keys being pairwise distinct). -/
theorem claimWhere_exclusive (r : CreateEmbeddingRequest) (X Y : String)
    (s : Store) (hXY : X ≠ Y) (hc : r.claimedBy = some X)
    (hd : r.done = false) :
    claimWhere X r = true
    ∧ claimWhere Y r = false
    ∧ (r ∈ s.requests → (s.requests.Pairwise fun a b => a.id ≠ b.id) →
        r ∈ (claimNext Y s).2.requests) := by
  have hwX : claimWhere X r = true := by simp [claimWhere, hc, hd]
  have hwY : claimWhere Y r = false := by
    simp [claimWhere, hc, hd]
    exact fun hcontra => absurd hcontra hXY
  refine ⟨hwX, hwY, ?_⟩
  intro hmem hnd
  cases hsel : selectNewest (s.requests.filter (claimWhere Y)) with
  | none =>
    have hcn : claimNext Y s = (.error .recordNotFound, s) := by
      simp [claimNext, hsel]
    rw [hcn]
    exact hmem
  | some c =>
    have hcn : claimNext Y s =
        (.ok c, { s with requests := setClaimedBy Y c.id s.requests }) := by
      simp [claimNext, hsel]
    rw [hcn]
    have hcfil := List.mem_filter.mp (selectNewest_mem hsel)
    have hne : r.id ≠ c.id := by
      intro hid
      have : r = c := eq_of_mem_of_id_eq hnd hmem hcfil.1 hid
      rw [← this] at hcfil
      rw [hwY] at hcfil
      exact absurd hcfil.2 (by simp)
    have hbeq : (r.id == c.id) = false := by
      simp [hne]
    have hfr : (fun q => if q.id == c.id then { q with claimedBy := some Y } else q) r
        = r := by
      simp [hbeq]
    exact hfr ▸ List.mem_map_of_mem _ hmem

theorem claimWhere_exclusive_witness :
    { id := "r7", claimedBy := some "X", done := false, createdAt := 4
    , modelAPI := "" }
      ∈ (claimNext "Y"
          { requests := [{ id := "r7", claimedBy := some "X", done := false
                         , createdAt := 4, modelAPI := "" }]
          , responses := [] }).2.requests :=
  (claimWhere_exclusive
    { id := "r7", claimedBy := some "X", done := false, createdAt := 4
    , modelAPI := "" } "X" "Y"
    { requests := [{ id := "r7", claimedBy := some "X", done := false
                   , createdAt := 4, modelAPI := "" }]
    , responses := [] }
    (by decide) (by decide) (by decide)).2.2 (by decide) (by decide)

/-- Outcome of the executor HTTP call performed through
`cclient.SendRequest`: the status code it reports and, on failure, the
error's text.  Modelled from the spec: `SendRequest` itself is outside
this file — the outbound call is the external executor behind the narrow
execute-job contract, and on executor failure it yields the error and a
failure (non-2xx) status rather than a success status. -/
structure ExecOutcome where
  code : Int
  errMsg : Option String
  deriving Repr, DecidableEq

/-- The response-row construction of `makeEmbeddingsRequest`
(lines 240-261): whatever the executor outcome, the error text (when the
call failed) is copied into `Error`, the reported status code into
`StatusCode`, the request's id into `RequestID`, and `Done` is set to
true; the function then returns the row without an error, so an executor
failure does not abort the pipeline.  `now` is the creation timestamp
`db.Create` stamps on the row when `run` persists it. -/
def makeEmbeddingsRequest (outcome : ExecOutcome)
    (er : CreateEmbeddingRequest) (now : Nat) : CreateEmbeddingResponse :=
  { requestID := er.id
  , statusCode := outcome.code
  , error := outcome.errMsg
  , done := true
  , createdAt := now }

/-- C3: when the executor call for a claimed request fails, a response row
is still created carrying the (non-empty) error text and the failure
status code, with its `Done` flag true; persisting it marks the request
`done`, after which the request satisfies no owner's claim predicate, so
no automatic second execution attempt can occur. -/
theorem executor_failure_terminal (outcome : ExecOutcome)
    (er : CreateEmbeddingRequest) (agentID : String) (now : Nat) (s : Store)
    (msg : String) (hfail : outcome.errMsg = some msg) (hmsg : msg ≠ "")
    (hcode : outcome.code < 200 ∨ 299 < outcome.code)
    (hclaim : er.claimedBy = some agentID) :
    (makeEmbeddingsRequest outcome er now).error = some msg
    ∧ msg ≠ ""
    ∧ ((makeEmbeddingsRequest outcome er now).statusCode < 200
        ∨ 299 < (makeEmbeddingsRequest outcome er now).statusCode)
    ∧ (makeEmbeddingsRequest outcome er now).done = true
    ∧ (makeEmbeddingsRequest outcome er now).requestID = er.id
    ∧ (er ∈ s.requests →
        { er with done := true }
          ∈ (completeTxn (makeEmbeddingsRequest outcome er now) er.id s
              true).requests
        ∧ makeEmbeddingsRequest outcome er now
          ∈ (completeTxn (makeEmbeddingsRequest outcome er now) er.id s
              true).responses)
    ∧ (∀ o, claimWhere o { er with done := true } = false) := by
  refine ⟨by simp [makeEmbeddingsRequest, hfail], hmsg,
    by simpa [makeEmbeddingsRequest] using hcode,
    rfl, rfl, ?_, ?_⟩
  · intro hmem
    constructor
    · have hfr : (fun q => if q.id == er.id then { q with done := true } else q) er
          = { er with done := true } := by
        simp
      exact hfr ▸ List.mem_map_of_mem _ hmem
    · simp [completeTxn]
  · intro o
    simp [claimWhere, hclaim]

theorem executor_failure_terminal_witness :
    (makeEmbeddingsRequest { code := 500, errMsg := some "connection refused" }
      { id := "r9", claimedBy := some "A", done := false, createdAt := 2
      , modelAPI := "" } 6).error = some "connection refused" :=
  (executor_failure_terminal
    { code := 500, errMsg := some "connection refused" }
    { id := "r9", claimedBy := some "A", done := false, createdAt := 2
    , modelAPI := "" } "A" 6 { requests := [], responses := [] }
    "connection refused" (by decide) (by decide) (by decide) (by decide)).1

/-- Result of one `a.run` call, as the poll loop discriminates it: nil
(a request was processed), `gorm.ErrRecordNotFound` (nothing to claim),
or any other error. -/
inductive RunOutcome where
  | ok
  | errRecordNotFound
  | errOther
  deriving Repr, DecidableEq

/-- The channels the poll loop's `select` statement can wake on. -/
inductive PollEv where
  | cancelled
  | timerFired
  | triggered
  deriving Repr, DecidableEq

/-- Observable control-flow effect of one iteration of the poll loop. -/
structure PollIterEffect where
  waitedForEvent : Bool
  terminated : Bool
  timerResetToFullInterval : Bool
  timerDrained : Bool
  deriving Repr, DecidableEq

/-- One iteration of the poll loop in `Start` (lines 90-123).  The
`select` over cancellation, the timer, and the trigger sits inside the
`if err := a.run(ctx); err != nil` block, so the loop waits only when
`run` returned an error; cancellation there drains a pending timer fire
and returns; in every continuing case the timer is stopped, drained and
reset to the full polling interval; after a successful `run` the loop
reaches the reset directly and attempts the next claim at once. -/
def pollLoopIteration (outcome : RunOutcome) (ev : PollEv) : PollIterEffect :=
  match outcome with
  | .ok =>
    { waitedForEvent := false, terminated := false
    , timerResetToFullInterval := true, timerDrained := true }
  | _ =>
    match ev with
    | .cancelled =>
      { waitedForEvent := true, terminated := true
      , timerResetToFullInterval := false, timerDrained := true }
    | _ =>
      { waitedForEvent := true, terminated := false
      , timerResetToFullInterval := true, timerDrained := true }

/-- C9 counterexample: after a successful poll-claim-execute-persist
cycle the poll loop does not wait on the timer or the trigger — it
continues to the next claim attempt immediately, refuting the claim that
the loop waits after every cycle including a successful one. -/
theorem pollLoop_no_wait_after_success :
    (pollLoopIteration .ok .timerFired).waitedForEvent = false
    ∧ (pollLoopIteration .ok .timerFired).terminated = false := by
  constructor <;> rfl

/-- C9 amended: the poll loop waits on the timer or the Trigger's
broadcast wake-up exactly after an iteration in which `run` returned an
error (the none-available error included); after a successful cycle it
immediately attempts the next claim; whenever it continues, the timer is
reset to the full polling interval (not merely the remaining time); on
the cancellation signal during the wait it drains any pending timer fire
and terminates. -/
theorem pollLoop_iteration_spec (outcome : RunOutcome) (ev : PollEv) :
    ((pollLoopIteration outcome ev).waitedForEvent = true ↔ outcome ≠ .ok)
    ∧ (outcome ≠ .ok → ev = .cancelled →
        (pollLoopIteration outcome ev).terminated = true
        ∧ (pollLoopIteration outcome ev).timerDrained = true)
    ∧ ((pollLoopIteration outcome ev).terminated = false →
        (pollLoopIteration outcome ev).timerResetToFullInterval = true) := by
  cases outcome <;> cases ev <;> simp [pollLoopIteration]

theorem pollLoop_iteration_spec_witness :
    (pollLoopIteration .errRecordNotFound .cancelled).terminated = true :=
  ((pollLoop_iteration_spec .errRecordNotFound .cancelled).2.1
    (by decide) rfl).1

/-- The two row kinds the cleanup loop passes to `db.DeleteExpired`
(lines 133-136). -/
inductive JobKind where
  | createEmbeddingRequestKind
  | createEmbeddingResponseKind
  deriving Repr, DecidableEq

/-- The arguments of one `db.DeleteExpired` call. -/
structure DeleteExpiredCall where
  cutoff : Int
  kinds : List JobKind
  deriving Repr, DecidableEq

/-- The cleanup timer period (line 132): `a.requestRetention / 2`, Go
integer division on the nanosecond count. -/
def cleanupInterval (requestRetention : Duration) : Duration :=
  requestRetention / 2

/-- The channels the cleanup loop's `select` statement can wake on. -/
inductive CleanupEv where
  | cancelled
  | timerFired
  deriving Repr, DecidableEq

/-- Observable effect of one iteration of the cleanup loop. -/
structure CleanupIterEffect where
  call : DeleteExpiredCall
  terminated : Bool
  timerResetTo : Option Duration
  deriving Repr, DecidableEq

/-- One iteration of the cleanup loop in `Start` (lines 128-162): compute
`expiration = now - requestRetention`, call `DeleteExpired` on the
request and response kinds, log a failure without acting on it
(`deleteFailed` does not influence anything below), then wait on
cancellation or the timer; on the timer the loop reschedules by resetting
the timer to `cleanupInterval`. -/
def cleanupLoopIteration (requestRetention : Duration) (now : Int)
    (deleteFailed : Bool) (ev : CleanupEv) : CleanupIterEffect :=
  let c : DeleteExpiredCall :=
    { cutoff := now - requestRetention
    , kinds := [JobKind.createEmbeddingRequestKind,
                JobKind.createEmbeddingResponseKind] }
  match ev with
  | .cancelled => { call := c, terminated := true, timerResetTo := none }
  | .timerFired =>
    { call := c, terminated := false
    , timerResetTo := some (cleanupInterval requestRetention) }

/-- C8: the cleanup loop runs on its own timer with period half the
retention period; every iteration calls `DeleteExpired` with cutoff
`now - retentionPeriod` on exactly the request kind and the response kind
of this agent; a `DeleteExpired` failure changes nothing in the
iteration's behaviour — the loop reschedules for the next tick. -/
theorem cleanupLoop_spec (requestRetention : Duration) (now : Int)
    (deleteFailed : Bool) (ev : CleanupEv) :
    (cleanupLoopIteration requestRetention now deleteFailed ev).call.cutoff
        = now - requestRetention
    ∧ (cleanupLoopIteration requestRetention now deleteFailed ev).call.kinds
        = [JobKind.createEmbeddingRequestKind,
           JobKind.createEmbeddingResponseKind]
    ∧ cleanupLoopIteration requestRetention now deleteFailed ev
        = cleanupLoopIteration requestRetention now false ev
    ∧ (ev = .timerFired →
        (cleanupLoopIteration requestRetention now deleteFailed ev).terminated
            = false
        ∧ (cleanupLoopIteration requestRetention now deleteFailed ev).timerResetTo
            = some (requestRetention / 2)) := by
  cases ev <;> simp [cleanupLoopIteration, cleanupInterval]

theorem cleanupLoop_spec_witness :
    (cleanupLoopIteration 600000000000 1000000000000 true .timerFired).timerResetTo
      = some 300000000000 :=
  ((cleanupLoop_spec 600000000000 1000000000000 true .timerFired).2.2.2 rfl).2

/-- Modelled from the spec: the store helper `db.DeleteExpired` (it lives
outside the agent file) deletes all rows of the given kinds whose creation
time is before the cutoff; here applied to the two kinds the embeddings
cleanup loop passes. -/
def deleteExpired (cutoff : Nat) (s : Store) : Store :=
  { requests := s.requests.filter fun r => decide (cutoff ≤ r.createdAt)
  , responses := s.responses.filter fun p => decide (cutoff ≤ p.createdAt) }

theorem setDone_shape {reqID : String} {rs : List CreateEmbeddingRequest}
    {q : CreateEmbeddingRequest} (hq : q ∈ setDone reqID rs) :
    ∃ q0 ∈ rs, q.id = q0.id ∧ q.createdAt = q0.createdAt
      ∧ (q.done = q0.done ∨ (q0.id = reqID ∧ q.done = true)) := by
  obtain ⟨q0, hq0, heq⟩ := List.mem_map.mp hq
  refine ⟨q0, hq0, ?_⟩
  by_cases hid : (q0.id == reqID) = true
  · rw [if_pos hid] at heq
    subst heq
    exact ⟨rfl, rfl, Or.inr ⟨by simpa using hid, rfl⟩⟩
  · rw [if_neg hid] at heq
    subst heq
    exact ⟨rfl, rfl, Or.inl rfl⟩

theorem setClaimedBy_shape {ownerID reqID : String}
    {rs : List CreateEmbeddingRequest} {q : CreateEmbeddingRequest}
    (hq : q ∈ setClaimedBy ownerID reqID rs) :
    ∃ q0 ∈ rs, q.id = q0.id ∧ q.done = q0.done ∧ q.createdAt = q0.createdAt := by
  obtain ⟨q0, hq0, heq⟩ := List.mem_map.mp hq
  refine ⟨q0, hq0, ?_⟩
  by_cases hid : (q0.id == reqID) = true
  · rw [if_pos hid] at heq
    subst heq
    exact ⟨rfl, rfl, rfl⟩
  · rw [if_neg hid] at heq
    subst heq
    exact ⟨rfl, rfl, rfl⟩

theorem claimNext_responses (ownerID : String) (s : Store) :
    (claimNext ownerID s).2.responses = s.responses := by
  cases hsel : selectNewest (s.requests.filter (claimWhere ownerID)) <;>
    simp [claimNext, hsel]

theorem claimNext_requests_shape (ownerID : String) (s : Store) :
    ∀ q ∈ (claimNext ownerID s).2.requests,
      ∃ q0 ∈ s.requests,
        q.id = q0.id ∧ q.done = q0.done ∧ q.createdAt = q0.createdAt := by
  intro q hq
  cases hsel : selectNewest (s.requests.filter (claimWhere ownerID)) with
  | none =>
    have hcn : claimNext ownerID s = (.error .recordNotFound, s) := by
      simp [claimNext, hsel]
    rw [hcn] at hq
    exact ⟨q, hq, rfl, rfl, rfl⟩
  | some r =>
    have hcn : claimNext ownerID s =
        (.ok r, { s with requests := setClaimedBy ownerID r.id s.requests }) := by
      simp [claimNext, hsel]
    rw [hcn] at hq
    exact setClaimedBy_shape hq

/-- The operations that can change the embeddings store: API intake of a
new request (which the spec describes as creating the row with `Done`
false; the intake handler is outside the agent file), the agent's claim
transaction, the agent's completion transaction (committing or rolling
back), and the cleanup delete.  Modelled from the spec on the completion
constructor: `db.Create` stamps the response row's creation time at
insert, which is no earlier than the creation time of any stored request
row it completes. -/
inductive StoreStep : Store → Store → Prop where
  | enqueue (r : CreateEmbeddingRequest) (s : Store) :
      r.done = false → StoreStep s { s with requests := s.requests ++ [r] }
  | claim (ownerID : String) (s : Store) : StoreStep s (claimNext ownerID s).2
  | complete (resp : CreateEmbeddingResponse) (reqID : String) (dbOk : Bool)
      (s : Store) :
      resp.requestID = reqID →
      (∀ q ∈ s.requests, q.id = reqID → q.createdAt ≤ resp.createdAt) →
      StoreStep s (completeTxn resp reqID s dbOk)
  | cleanup (cutoff : Nat) (s : Store) : StoreStep s (deleteExpired cutoff s)

/-- The completion invariant, strengthened with the timestamp ordering
that keeps it stable under retention cleanup. -/
def DoneHasResponse (s : Store) : Prop :=
  ∀ r ∈ s.requests, r.done = true →
    ∃ p ∈ s.responses, p.requestID = r.id ∧ r.createdAt ≤ p.createdAt

theorem doneHasResponse_step {s s2 : Store} (hinv : DoneHasResponse s)
    (hstep : StoreStep s s2) : DoneHasResponse s2 := by
  cases hstep with
  | enqueue r s hr =>
    intro q hq hdq
    rcases List.mem_append.mp hq with hq1 | hq2
    · exact hinv q hq1 hdq
    · have hqr : q = r := by simpa using hq2
      rw [hqr, hr] at hdq
      exact absurd hdq (by simp)
  | claim ownerID s =>
    intro q hq hdq
    obtain ⟨q0, hq0, hid, hdone, hca⟩ := claimNext_requests_shape ownerID s q hq
    obtain ⟨p, hp, hpr, hple⟩ := hinv q0 hq0 (hdone ▸ hdq)
    rw [claimNext_responses]
    exact ⟨p, hp, hid ▸ hpr, hca ▸ hple⟩
  | complete resp reqID dbOk s hrid hts =>
    cases dbOk with
    | false => simpa [completeTxn] using hinv
    | true =>
      intro q hq hdq
      simp only [completeTxn, if_pos] at hq ⊢
      obtain ⟨q0, hq0, hid, hca, hdisj⟩ := setDone_shape hq
      rcases hdisj with hsame | ⟨hq0id, _⟩
      · obtain ⟨p, hp, hpr, hple⟩ := hinv q0 hq0 (hsame ▸ hdq)
        exact ⟨p, List.mem_append_left _ hp, hid ▸ hpr, hca ▸ hple⟩
      · refine ⟨resp, List.mem_append_right _ (by simp), ?_, ?_⟩
        · rw [hrid, hid, hq0id]
        · rw [hca]
          exact hts q0 hq0 hq0id
  | cleanup cutoff s =>
    intro q hq hdq
    simp only [deleteExpired] at hq ⊢
    have hq2 := List.mem_filter.mp hq
    obtain ⟨p, hp, hpr, hple⟩ := hinv q hq2.1 hdq
    refine ⟨p, List.mem_filter.mpr ⟨hp, ?_⟩, hpr, hple⟩
    have hcq : cutoff ≤ q.createdAt := of_decide_eq_true hq2.2
    exact decide_eq_true (le_trans hcq hple)

/-- C5: in every store reachable from the empty store through request
intake and the agent's claim, completion, and cleanup operations, a
request row whose `Done` flag is true has a response row carrying its id. -/
theorem reachable_done_has_response (s : Store)
    (hreach : Relation.ReflTransGen StoreStep
      { requests := [], responses := [] } s) :
    ∀ r ∈ s.requests, r.done = true →
      ∃ p ∈ s.responses, p.requestID = r.id := by
  have hinv : DoneHasResponse s := by
    induction hreach with
    | refl => intro r hr; exact absurd hr (List.not_mem_nil r)
    | tail hsteps hstep ih => exact doneHasResponse_step ih hstep
  intro r hr hd
  obtain ⟨p, hp, hpr, _⟩ := hinv r hr hd
  exact ⟨p, hp, hpr⟩

/-- The request of the C5 witness scenario. -/
def reqW : CreateEmbeddingRequest :=
  { id := "w1", claimedBy := none, done := false, createdAt := 3
  , modelAPI := "" }

/-- The response of the C5 witness scenario. -/
def respW : CreateEmbeddingResponse :=
  { requestID := "w1", statusCode := 200, error := none, done := true
  , createdAt := 7 }

/-- The C5 witness scenario: enqueue, claim, complete, then clean up with
a cutoff below both rows' creation times. -/
def storeW : Store :=
  deleteExpired 2
    (completeTxn respW "w1"
      (claimNext "A"
        { requests := [] ++ [reqW], responses := [] }).2 true)

theorem reachable_done_has_response_witness :
    storeW.responses.any (fun p => p.requestID == "w1") = true := by
  obtain ⟨p, hp, hpr⟩ :=
    reachable_done_has_response storeW
      (Relation.ReflTransGen.tail
        (Relation.ReflTransGen.tail
          (Relation.ReflTransGen.tail
            (Relation.ReflTransGen.tail Relation.ReflTransGen.refl
              (StoreStep.enqueue reqW { requests := [], responses := [] }
                (by decide)))
            (StoreStep.claim "A" { requests := [] ++ [reqW], responses := [] }))
          (StoreStep.complete respW "w1" true
            (claimNext "A" { requests := [] ++ [reqW], responses := [] }).2
            (by decide) (by decide)))
        (StoreStep.cleanup 2
          (completeTxn respW "w1"
            (claimNext "A" { requests := [] ++ [reqW], responses := [] }).2
            true)))
      { id := "w1", claimedBy := some "A", done := true, createdAt := 3
      , modelAPI := "" }
      (by decide) (by decide)
  exact List.any_eq_true.mpr ⟨p, hp, by simp [hpr]⟩

/-- A set of concurrent claim attempts, as the isolation requirement on
the claim transaction serializes them: each owner's `claimNext`
transaction runs against the store state the previous one committed, and
the count of `.ok` results is the number of attempts that succeeded. -/
def claimRace (owners : List String) (s : Store) : Nat × Store :=
  match owners with
  | [] => (0, s)
  | o :: rest =>
    match claimNext o s with
    | (.ok _, s2) =>
      let t := claimRace rest s2
      (t.1 + 1, t.2)
    | (.error _, s2) =>
      claimRace rest s2

theorem claimNext_single_claimed {o w : String}
    {q : CreateEmbeddingRequest} {ps : List CreateEmbeddingResponse}
    (hq : q.claimedBy = some w) (hne : w ≠ o) :
    claimNext o { requests := [q], responses := ps }
      = (.error .recordNotFound, { requests := [q], responses := ps }) := by
  have hw : claimWhere o q = false := by
    simp [claimWhere, hq]
    exact fun hcontra => absurd hcontra hne
  have hfil : List.filter (claimWhere o) [q] = [] := by
    simp [hw]
  simp [claimNext, hfil, selectNewest]

theorem claimNext_single_unclaimed {o : String}
    {r : CreateEmbeddingRequest} {ps : List CreateEmbeddingResponse}
    (hr : r.claimedBy = none) :
    claimNext o { requests := [r], responses := ps }
      = (.ok r,
         { requests := [{ r with claimedBy := some o }], responses := ps }) := by
  have hw : claimWhere o r = true := by
    simp [claimWhere, hr]
  have hfil : List.filter (claimWhere o) [r] = [r] := by
    simp [hw]
  simp [claimNext, hfil, selectNewest, setClaimedBy]

theorem claimRace_claimed {w : String} (owners : List String)
    {q : CreateEmbeddingRequest} {ps : List CreateEmbeddingResponse}
    (hq : q.claimedBy = some w) (hw : w ∉ owners) :
    claimRace owners { requests := [q], responses := ps }
      = (0, { requests := [q], responses := ps }) := by
  induction owners with
  | nil => rfl
  | cons o rest ih =>
    have hno : w ≠ o := fun h => hw (h ▸ List.mem_cons_self o rest)
    have hrest : w ∉ rest := fun h => hw (List.mem_cons_of_mem o h)
    rw [claimRace, claimNext_single_claimed hq hno]
    exact ih hrest

/-- C6: for a single unclaimed job row, any number of claim attempts by
pairwise-distinct owner identities — serialized by the isolation the
claim transaction runs under — lets at most one attempt succeed: the
first claim sets the row's owner, and every later attempt by a different
owner finds no matching row. -/
theorem claimRace_at_most_one (owners : List String)
    (r : CreateEmbeddingRequest) (ps : List CreateEmbeddingResponse)
    (hnd : owners.Nodup) (hr : r.claimedBy = none) :
    (claimRace owners { requests := [r], responses := ps }).1 ≤ 1 := by
  cases owners with
  | nil => exact Nat.zero_le 1
  | cons o rest =>
    have hno : o ∉ rest := (List.nodup_cons.mp hnd).1
    rw [claimRace, claimNext_single_unclaimed hr]
    have hrest : claimRace rest
        { requests := [{ r with claimedBy := some o }], responses := ps }
        = (0, { requests := [{ r with claimedBy := some o }], responses := ps }) :=
      claimRace_claimed rest (q := { r with claimedBy := some o }) rfl hno
    simp [hrest]

theorem claimRace_at_most_one_witness :
    (claimRace ["A", "B", "C"]
      { requests := [{ id := "w6", claimedBy := none, done := false
                     , createdAt := 1, modelAPI := "" }]
      , responses := [] }).1 ≤ 1 :=
  claimRace_at_most_one ["A", "B", "C"]
    { id := "w6", claimedBy := none, done := false, createdAt := 1
    , modelAPI := "" } [] (by decide) (by decide)
